import Mathlib

/-!
Verification development for the AcousticDNA audio fingerprinting engine.

The Go source is embedded shallowly:
pure functions become Lean functions, Go float64 values are modelled as
rationals (or reals where a transcendental function is involved), Go maps
are modelled as association lists or total functions with an empty default,
and fallible operations return Option or Except.

Embedded components:
  - internal/fingerprint/hasher.go: constants and createAddress.
  - pkg/acousticdna/audio/metadata.go: the Fingerprint and QueryFingerprints
    pairing loops and the vote table of QueryFingerprints.
  - internal/fingerprint/peaks.go: ExtractPeaks.
  - cmd/server request types: isValidHash and ToHashMap.
  - storage (sqlite client): GetCouplesByHash, GetCouplesByHashes,
    DeleteSongByID, and the fingerprint-store rollback path of AddSong.
  - pkg/acousticdna/service.go: calculateConfidence and MatchHashes.
-/

namespace AcousticDNA

/-- Number of bits allocated to frequency indices (hasher.go MaxFreqBits). -/
def MaxFreqBits : ℕ := 9

/-- Number of bits allocated to delta time in milliseconds (hasher.go MaxDeltaBits). -/
def MaxDeltaBits : ℕ := 14

/-- How many target peaks to pair with each anchor (hasher.go FanOut). -/
def FanOut : ℕ := 6

/-- Minimum delta time in ms allowed for a pair (hasher.go MinDeltaMs). -/
def MinDeltaMs : ℕ := 10

/-- Maximum delta time in ms allowed for a pair (hasher.go MaxDeltaMs). -/
def MaxDeltaMs : ℕ := 15000

/-- Whether createAddress uses Peak.FreqIdx (true) or Peak.Freq quantized by 10 Hz
(hasher.go UseFreqIdx). -/
def UseFreqIdx : Bool := true

/-- A spectral peak (peaks.go Peak). Go float64 fields are modelled as rationals. -/
structure Peak where
  TimeIdx : ℕ
  FreqIdx : ℕ
  Time : ℚ
  Freq : ℚ
  MagDB : ℚ
deriving DecidableEq, Repr

/-- uint32(math.Round(x)) for the nonnegative values that reach it in the pairing
code: math.Round rounds half away from zero, which on nonnegative input is
Rat.floor (x + 1/2). Written with Rat.floor so that concrete instances evaluate;
goRoundToNat_eq_round below ties it to the mathematical rounding function. -/
def goRoundToNat (x : ℚ) : ℕ := (Rat.floor (x + 1/2)).toNat

/-- Rat.floor agrees with the floor of the ordered-field structure on ℚ. -/
theorem rat_floor_intFloor (x : ℚ) : Rat.floor x = ⌊x⌋ := rfl

/-- goRoundToNat is the Mathlib round function followed by toNat. -/
theorem goRoundToNat_eq_round (x : ℚ) : goRoundToNat x = (round x).toNat := by
  unfold goRoundToNat
  rw [round_eq, rat_floor_intFloor]

/-- Evaluation rule for goRoundToNat on a concrete rational. -/
theorem goRoundToNat_eq (x : ℚ) (n : ℕ) (h1 : (n : ℚ) ≤ x + 1/2)
    (h2 : x + 1/2 < n + 1) : goRoundToNat x = n := by
  unfold goRoundToNat
  rw [rat_floor_intFloor]
  have hf : ⌊x + 1/2⌋ = (n : ℤ) := by
    rw [Int.floor_eq_iff]
    exact ⟨by exact_mod_cast h1, by push_cast; exact h2⟩
  rw [hf]
  simp

/-- Delta time of a peak pair in milliseconds:
uint32(math.Round((target.Time - anchor.Time) * 1000.0)) in hasher.go.
The pairing loops only form pairs with target.Time at or after anchor.Time, so the
rounded value is nonnegative and toNat is exact. -/
def deltaMs (anchor target : Peak) : ℕ :=
  goRoundToNat ((target.Time - anchor.Time) * 1000)

/-- The anchor time in milliseconds: uint32(math.Round(anchor.Time * 1000.0)). -/
def anchorTimeMsOf (p : Peak) : ℕ := goRoundToNat (p.Time * 1000)

/-- createAddress from hasher.go: packs anchor and target frequency and delta time
into a 32-bit key; none models the (0, false) return. -/
def createAddress (anchor target : Peak) : Option ℕ :=
  let anchorFreqVal : ℕ :=
    if UseFreqIdx then anchor.FreqIdx else (⌊anchor.Freq / 10 + 1/2⌋).toNat
  let targetFreqVal : ℕ :=
    if UseFreqIdx then target.FreqIdx else (⌊target.Freq / 10 + 1/2⌋).toNat
  let d := deltaMs anchor target
  if d < MinDeltaMs ∨ d > MaxDeltaMs then none
  else
    let maxFreqMask : ℕ := 2 ^ MaxFreqBits - 1
    let maxDeltaMask : ℕ := 2 ^ MaxDeltaBits - 1
    if anchorFreqVal > maxFreqMask ∨ targetFreqVal > maxFreqMask then none
    else if d > maxDeltaMask then none
    else some ((anchorFreqVal <<< (MaxDeltaBits + MaxFreqBits)) |||
               (targetFreqVal <<< MaxDeltaBits) ||| (d &&& maxDeltaMask))

/-- The inner pairing loop shared by Fingerprint and QueryFingerprints in
metadata.go: scan the peaks after the anchor in order, emit accepted pairs,
and stop once the per-anchor counter paired reaches FanOut. Only accepted
pairs increment paired. -/
def pairTargets (anchor : Peak) (paired : ℕ) : List Peak → List (ℕ × Peak)
  | [] => []
  | q :: rest =>
    if paired < FanOut then
      match createAddress anchor q with
      | none => pairTargets anchor paired rest
      | some a => (a, q) :: pairTargets anchor (paired + 1) rest
    else []

/-- The outer loop of Fingerprint and QueryFingerprints: every peak in turn is an
anchor, paired against the peaks after it. Each element is
(address, anchor, target) for one accepted pair, in emission order. -/
def pairEmissions : List Peak → List (ℕ × Peak × Peak)
  | [] => []
  | anchor :: rest =>
    ((pairTargets anchor 0 rest).map fun e => (e.1, anchor, e.2)) ++ pairEmissions rest

/-- Ordering used by the sort.Slice call at the top of Fingerprint and
QueryFingerprints (compare by Time only). -/
def timeLe (p q : Peak) : Prop := p.Time ≤ q.Time

instance : DecidableRel timeLe := fun p q => inferInstanceAs (Decidable (p.Time ≤ q.Time))

/-- A stored couple (models.Couple): reference id and anchor time in ms. -/
structure Couple where
  SongID : String
  AnchorTimeMs : ℕ
deriving DecidableEq, Repr

/-- Fingerprint from metadata.go: sort peaks by time, then for each accepted pair
append a couple to the bucket of its address. The Go map is modelled as a total
function with empty-list default. -/
def Fingerprint (peaks : List Peak) (songID : String) : ℕ → List Couple :=
  let sorted := List.insertionSort timeLe peaks
  (pairEmissions sorted).foldl
    (fun fp e => fun a =>
      if a = e.1 then fp a ++ [⟨songID, anchorTimeMsOf e.2.1⟩] else fp a)
    (fun _ => [])

/-- Bump one cell of a vote table votes[song][offset]. -/
def bumpVote (v : String → ℤ → ℕ) (s : String) (o : ℤ) : String → ℤ → ℕ :=
  fun s2 o2 => if s2 = s ∧ o2 = o then v s2 o2 + 1 else v s2 o2

/-- The vote table built by QueryFingerprints in metadata.go: sort the query peaks
by time, re-derive the accepted pairs, and for every database couple of an
emitted address cast one vote for (SongID, dbAnchor - queryAnchor) using the
anchor time of that very occurrence. -/
def queryVotes (queryPeaks : List Peak) (db : ℕ → List Couple) : String → ℤ → ℕ :=
  let sorted := List.insertionSort timeLe queryPeaks
  (pairEmissions sorted).foldl
    (fun v e =>
      (db e.1).foldl
        (fun v2 c =>
          bumpVote v2 c.SongID ((c.AnchorTimeMs : ℤ) - (anchorTimeMsOf e.2.1 : ℤ)))
        v)
    (fun _ _ => 0)

/-! Bit-arithmetic helper lemmas for the 32-bit address layout. -/

/-- Packing with disjoint bit fields is plain arithmetic: for in-range fields the
packed address equals (a * 512 + t) * 16384 + d. -/
theorem pack_eq_arith (a t d : ℕ) (ha : a < 512) (ht : t < 512) (hd : d < 16384) :
    (a <<< 23) ||| (t <<< 14) ||| (d &&& 0x3FFF) = (a * 512 + t) * 16384 + d := by
  have hmask : d &&& 0x3FFF = d := by
    have h := Nat.and_pow_two_sub_one_eq_mod d 14
    norm_num at h
    rw [h]
    exact Nat.mod_eq_of_lt hd
  have h1 : (a <<< 23) ||| (t <<< 14) = 2 ^ 23 * a + 2 ^ 14 * t := by
    rw [Nat.shiftLeft_eq, Nat.shiftLeft_eq, Nat.mul_comm a, Nat.mul_comm t]
    have hlt : 2 ^ 14 * t < 2 ^ 23 := by norm_num; omega
    exact (Nat.mul_add_lt_is_or hlt a).symm
  have h2 : 2 ^ 23 * a + 2 ^ 14 * t = 2 ^ 14 * (2 ^ 9 * a + t) := by ring
  have h3 : (2 ^ 14 * (2 ^ 9 * a + t)) ||| d = 2 ^ 14 * (2 ^ 9 * a + t) + d :=
    (Nat.mul_add_lt_is_or (by norm_num; omega) (2 ^ 9 * a + t)).symm
  rw [hmask, h1, h2, h3]
  ring

/-- Unpacking the arithmetic form recovers the three fields. -/
theorem unpack_arith (a t d : ℕ) (ha : a < 512) (ht : t < 512) (hd : d < 16384) :
    (((a * 512 + t) * 16384 + d) >>> 23) &&& 0x1FF = a ∧
    (((a * 512 + t) * 16384 + d) >>> 14) &&& 0x1FF = t ∧
    ((a * 512 + t) * 16384 + d) &&& 0x3FFF = d := by
  have e9 : (0x1FF : ℕ) = 2 ^ 9 - 1 := by norm_num
  have e14 : (0x3FFF : ℕ) = 2 ^ 14 - 1 := by norm_num
  refine ⟨?_, ?_, ?_⟩
  · rw [Nat.shiftRight_eq_div_pow, e9, Nat.and_pow_two_sub_one_eq_mod]
    norm_num
    omega
  · rw [Nat.shiftRight_eq_div_pow, e9, Nat.and_pow_two_sub_one_eq_mod]
    norm_num
    omega
  · rw [e14, Nat.and_pow_two_sub_one_eq_mod]
    norm_num
    omega

/-- Evaluation rule for createAddress when every field is in range: the packed
address in plain arithmetic form. -/
theorem createAddress_eval (p q : Peak) (h1 : 10 ≤ deltaMs p q)
    (h2 : deltaMs p q ≤ 15000) (hp : p.FreqIdx ≤ 511) (hq : q.FreqIdx ≤ 511) :
    createAddress p q = some ((p.FreqIdx * 512 + q.FreqIdx) * 16384 + deltaMs p q) := by
  unfold createAddress
  simp only [UseFreqIdx, if_true]
  rw [if_neg (by unfold MinDeltaMs MaxDeltaMs; omega),
    if_neg (by
      unfold MaxFreqBits
      have h9 : (2 : ℕ) ^ 9 - 1 = 511 := by norm_num
      omega),
    if_neg (by
      unfold MaxDeltaBits
      have h14 : (2 : ℕ) ^ 14 - 1 = 16383 := by norm_num
      omega)]
  exact congrArg some
    (pack_eq_arith p.FreqIdx q.FreqIdx (deltaMs p q) (by omega) (by omega) (by omega))

/-- Claim C1: for every anchor frequency a and target frequency t below 512 and
every delta d with 10 ≤ d ≤ 15000, createAddress on a peak pair with those
frequency indices and that rounded time difference succeeds and returns
h = (a <<< 23) ||| (t <<< 14) ||| (d &&& 0x3FFF), and the unpacking
((h >>> 23) &&& 0x1FF, (h >>> 14) &&& 0x1FF, h &&& 0x3FFF) recovers (a, t, d). -/
theorem claim1_bit_layout_roundtrip (p q : Peak) (a t d : ℕ)
    (hpa : p.FreqIdx = a) (hqt : q.FreqIdx = t) (hdelta : deltaMs p q = d)
    (ha : a < 512) (ht : t < 512) (hd1 : 10 ≤ d) (hd2 : d ≤ 15000) :
    createAddress p q = some ((a <<< 23) ||| (t <<< 14) ||| (d &&& 0x3FFF)) ∧
    (((a <<< 23) ||| (t <<< 14) ||| (d &&& 0x3FFF)) >>> 23) &&& 0x1FF = a ∧
    (((a <<< 23) ||| (t <<< 14) ||| (d &&& 0x3FFF)) >>> 14) &&& 0x1FF = t ∧
    ((a <<< 23) ||| (t <<< 14) ||| (d &&& 0x3FFF)) &&& 0x3FFF = d := by
  have hd3 : d < 16384 := by omega
  have hpack := pack_eq_arith a t d ha ht hd3
  have hun := unpack_arith a t d ha ht hd3
  refine ⟨?_, by rw [hpack]; exact hun.1, by rw [hpack]; exact hun.2.1,
    by rw [hpack]; exact hun.2.2⟩
  unfold createAddress
  simp only [UseFreqIdx, if_true, hpa, hqt, hdelta]
  have g1 : ¬ (d < MinDeltaMs ∨ d > MaxDeltaMs) := by
    unfold MinDeltaMs MaxDeltaMs; omega
  have g2 : ¬ (a > 2 ^ MaxFreqBits - 1 ∨ t > 2 ^ MaxFreqBits - 1) := by
    unfold MaxFreqBits; norm_num; omega
  have g3 : ¬ (d > 2 ^ MaxDeltaBits - 1) := by
    unfold MaxDeltaBits; norm_num; omega
  rw [if_neg g1, if_neg g2, if_neg g3]
  unfold MaxDeltaBits MaxFreqBits
  norm_num

/-- Membership in the inner pairing loop implies the pair was accepted by
createAddress. -/
theorem pairTargets_mem {anchor : Peak} {paired : ℕ} {rest : List Peak}
    {a : ℕ} {tg : Peak} (h : (a, tg) ∈ pairTargets anchor paired rest) :
    createAddress anchor tg = some a := by
  induction rest generalizing paired with
  | nil => simp [pairTargets] at h
  | cons q rs ih =>
    unfold pairTargets at h
    by_cases hp : paired < FanOut
    · rw [if_pos hp] at h
      rcases hca : createAddress anchor q with _ | av
      · rw [hca] at h
        exact ih h
      · rw [hca] at h
        rcases List.mem_cons.mp h with h1 | h1
        · rw [Prod.mk.injEq] at h1
          obtain ⟨rfl, rfl⟩ := h1
          exact hca
        · exact ih h1
    · rw [if_neg hp] at h
      simp at h

/-- Claim C2: a pair whose rounded delta is below 10 ms or above 15000 ms, or one
of whose frequency indices exceeds 511, is rejected by createAddress, and every
address emitted by the pairing loops of the fingerprinting functions comes from
a pair that createAddress accepted, so a rejected pair is never emitted. -/
theorem claim2_hasher_rejection (p q : Peak) (peaks : List Peak)
    (a : ℕ) (pr tg : Peak)
    (hbad : deltaMs p q < 10 ∨ deltaMs p q > 15000 ∨ 511 < p.FreqIdx ∨ 511 < q.FreqIdx)
    (hmem : (a, pr, tg) ∈ pairEmissions peaks) :
    createAddress p q = none ∧ createAddress pr tg = some a := by
  constructor
  · unfold createAddress
    simp only [UseFreqIdx, if_true]
    rcases hbad with h | h | h | h
    · rw [if_pos (by unfold MinDeltaMs; omega)]
    · rw [if_pos (by unfold MaxDeltaMs; omega)]
    · by_cases hdz : deltaMs p q < MinDeltaMs ∨ deltaMs p q > MaxDeltaMs
      · rw [if_pos hdz]
      · rw [if_neg hdz, if_pos (by unfold MaxFreqBits; norm_num; omega)]
    · by_cases hdz : deltaMs p q < MinDeltaMs ∨ deltaMs p q > MaxDeltaMs
      · rw [if_pos hdz]
      · rw [if_neg hdz, if_pos (by unfold MaxFreqBits; norm_num; omega)]
  · induction peaks with
    | nil => simp [pairEmissions] at hmem
    | cons anchor rest ih =>
      unfold pairEmissions at hmem
      rcases List.mem_append.mp hmem with h1 | h1
      · obtain ⟨e, hin, heq⟩ := List.mem_map.mp h1
        rw [Prod.mk.injEq, Prod.mk.injEq] at heq
        obtain ⟨h2, h3, h4⟩ := heq
        subst h2; subst h3; subst h4
        exact pairTargets_mem (by simpa using hin)
      · exact ih h1

/-- Generalisation of the fan-out characterisation: with paired already used, the
loop emits the first FanOut - paired accepted pairs. -/
theorem pairTargets_eq_take (anchor : Peak) (paired : ℕ) (rest : List Peak) :
    pairTargets anchor paired rest =
      (rest.filterMap fun q => (createAddress anchor q).map fun a => (a, q)).take
        (FanOut - paired) := by
  induction rest generalizing paired with
  | nil => simp [pairTargets]
  | cons q rs ih =>
    unfold pairTargets
    by_cases hp : paired < FanOut
    · rw [if_pos hp]
      rcases hca : createAddress anchor q with _ | av
      · simp only [List.filterMap_cons, hca, Option.map_none']
        exact ih paired
      · simp only [List.filterMap_cons, hca, Option.map_some']
        have htake : FanOut - paired = (FanOut - (paired + 1)) + 1 := by omega
        rw [htake, List.take_succ_cons, ih (paired + 1)]
    · rw [if_neg hp]
      have : FanOut - paired = 0 := by omega
      rw [this, List.take_zero]

instance : Inhabited Peak := ⟨⟨0, 0, 0, 0, 0⟩⟩

/-- The outer pairing loop indexed: every position i is an anchor, paired
against the peaks after it. -/
theorem pairEmissions_eq_indexed (peaks : List Peak) :
    pairEmissions peaks = (List.range peaks.length).flatMap
      (fun i => (pairTargets (peaks.getD i default) 0 (peaks.drop (i + 1))).map
        (fun e => (e.1, peaks.getD i default, e.2))) := by
  induction peaks with
  | nil => simp [pairEmissions]
  | cons p rest ih =>
    rw [pairEmissions, ih, List.length_cons, List.range_succ_eq_map,
      List.flatMap_cons, List.flatMap_map]
    rfl

/-- Claim C3: in the pairing loop each peak is an anchor for the peaks after it
(in increasing index order); the pairs emitted for one anchor are exactly the
first FanOut accepted ones (rejected pairs do not consume the fan-out budget,
the scan continues past them), and at most FanOut pairs are emitted per anchor. -/
theorem claim3_fanout_accepted_only (anchor : Peak) (rest : List Peak)
    (peaks : List Peak) :
    pairTargets anchor 0 rest =
      (rest.filterMap fun q => (createAddress anchor q).map fun a => (a, q)).take FanOut ∧
    (pairTargets anchor 0 rest).length ≤ FanOut ∧
    pairEmissions peaks = (List.range peaks.length).flatMap
      (fun i => (pairTargets (peaks.getD i default) 0 (peaks.drop (i + 1))).map
        (fun e => (e.1, peaks.getD i default, e.2))) := by
  have h := pairTargets_eq_take anchor 0 rest
  rw [Nat.sub_zero] at h
  exact ⟨h, by rw [h]; exact List.length_take_le _ _, pairEmissions_eq_indexed peaks⟩

/-- Witness for claim C1 at the concrete pair a = 100, t = 200, d = 1500. -/
theorem claim1_witness :
    createAddress ⟨0, 100, 0, 0, 0⟩ ⟨0, 200, 3/2, 0, 0⟩ =
      some ((100 <<< 23) ||| (200 <<< 14) ||| (1500 &&& 0x3FFF)) ∧
    (((100 <<< 23) ||| (200 <<< 14) ||| (1500 &&& 0x3FFF)) >>> 23) &&& 0x1FF = 100 ∧
    (((100 <<< 23) ||| (200 <<< 14) ||| (1500 &&& 0x3FFF)) >>> 14) &&& 0x1FF = 200 ∧
    ((100 <<< 23) ||| (200 <<< 14) ||| (1500 &&& 0x3FFF)) &&& 0x3FFF = 1500 :=
  claim1_bit_layout_roundtrip ⟨0, 100, 0, 0, 0⟩ ⟨0, 200, 3/2, 0, 0⟩ 100 200 1500
    rfl rfl
    (by unfold deltaMs; exact goRoundToNat_eq _ 1500 (by norm_num) (by norm_num))
    (by norm_num) (by norm_num) (by norm_num) (by norm_num)

/-- Witness for claim C2: a pair with rounded delta 5 ms is rejected, and the one
address emitted for the two-peak list [p0, p1] comes from an accepted pair. -/
theorem claim2_witness :
    createAddress (⟨0, 1, 0, 0, 0⟩ : Peak) ⟨0, 2, 5/1000, 0, 0⟩ = none ∧
    createAddress (⟨0, 1, 0, 0, 0⟩ : Peak) ⟨0, 2, 3/2, 0, 0⟩ = some 8422876 :=
  claim2_hasher_rejection ⟨0, 1, 0, 0, 0⟩ ⟨0, 2, 5/1000, 0, 0⟩
    [⟨0, 1, 0, 0, 0⟩, ⟨0, 2, 3/2, 0, 0⟩] 8422876 ⟨0, 1, 0, 0, 0⟩ ⟨0, 2, 3/2, 0, 0⟩
    (by
      have h5 : deltaMs (⟨0, 1, 0, 0, 0⟩ : Peak) ⟨0, 2, 5/1000, 0, 0⟩ = 5 := by
        unfold deltaMs
        exact goRoundToNat_eq _ 5 (by norm_num) (by norm_num)
      omega)
    (by
      have hd : deltaMs (⟨0, 1, 0, 0, 0⟩ : Peak) ⟨0, 2, 3/2, 0, 0⟩ = 1500 := by
        unfold deltaMs
        exact goRoundToNat_eq _ 1500 (by norm_num) (by norm_num)
      have hca : createAddress (⟨0, 1, 0, 0, 0⟩ : Peak) ⟨0, 2, 3/2, 0, 0⟩ =
          some 8422876 := by
        rw [createAddress_eval _ _ (by omega) (by omega) (by norm_num) (by norm_num), hd]
        norm_num
      simp [pairEmissions, pairTargets, hca, FanOut])

/-! Claim C4: the in-process query path. The spec asserts that matching operates
on a map address to first-emitted anchor time. The model below follows the
words of the spec and is compared with queryVotes, which embeds the code. -/

/-- Modelled from the words of the spec for comparison with the code: a map from
address to the anchor time of its first-emitted occurrence (first-write-wins). -/
def queryHashesFirstWins (queryPeaks : List Peak) : List (ℕ × ℕ) :=
  (pairEmissions (List.insertionSort timeLe queryPeaks)).foldl
    (fun m e =>
      if m.any (fun x => x.1 == e.1) then m else m ++ [(e.1, anchorTimeMsOf e.2.1)])
    []

/-- Voting over a hash-to-anchor-time map, as the spec describes the matcher
input: one vote per map entry and database couple. -/
def votesFromHashList (qh : List (ℕ × ℕ)) (db : ℕ → List Couple) : String → ℤ → ℕ :=
  qh.foldl
    (fun v e =>
      (db e.1).foldl
        (fun v2 c => bumpVote v2 c.SongID ((c.AnchorTimeMs : ℤ) - (e.2 : ℤ)))
        v)
    (fun _ _ => 0)

/-- Counterexample to claim C4: four query peaks in which the address
8422376 = (1 <<< 23) ||| (2 <<< 14) ||| 1000 is emitted by two different anchors
(at 0 ms and at 2000 ms). Against a database holding one couple for that address
at 3000 ms, the code casts a vote at offset 1000 using the second anchor time,
while matching on the first-write-wins map casts no such vote: the in-process
matcher does not operate on a first-occurrence map. -/
theorem claim4_counterexample :
    queryVotes
      [⟨0, 1, 0, 0, 0⟩, ⟨1, 2, 1, 0, 0⟩, ⟨2, 1, 2, 0, 0⟩, ⟨3, 2, 3, 0, 0⟩]
      (fun a => if a = 8422376 then [⟨"s", 3000⟩] else []) "s" 1000 = 1 ∧
    votesFromHashList
      (queryHashesFirstWins
        [⟨0, 1, 0, 0, 0⟩, ⟨1, 2, 1, 0, 0⟩, ⟨2, 1, 2, 0, 0⟩, ⟨3, 2, 3, 0, 0⟩])
      (fun a => if a = 8422376 then [⟨"s", 3000⟩] else []) "s" 1000 = 0 := by
  have hd01 : deltaMs (⟨0, 1, 0, 0, 0⟩ : Peak) ⟨1, 2, 1, 0, 0⟩ = 1000 := by
    unfold deltaMs; exact goRoundToNat_eq _ 1000 (by norm_num) (by norm_num)
  have hd02 : deltaMs (⟨0, 1, 0, 0, 0⟩ : Peak) ⟨2, 1, 2, 0, 0⟩ = 2000 := by
    unfold deltaMs; exact goRoundToNat_eq _ 2000 (by norm_num) (by norm_num)
  have hd03 : deltaMs (⟨0, 1, 0, 0, 0⟩ : Peak) ⟨3, 2, 3, 0, 0⟩ = 3000 := by
    unfold deltaMs; exact goRoundToNat_eq _ 3000 (by norm_num) (by norm_num)
  have hd12 : deltaMs (⟨1, 2, 1, 0, 0⟩ : Peak) ⟨2, 1, 2, 0, 0⟩ = 1000 := by
    unfold deltaMs; exact goRoundToNat_eq _ 1000 (by norm_num) (by norm_num)
  have hd13 : deltaMs (⟨1, 2, 1, 0, 0⟩ : Peak) ⟨3, 2, 3, 0, 0⟩ = 2000 := by
    unfold deltaMs; exact goRoundToNat_eq _ 2000 (by norm_num) (by norm_num)
  have hd23 : deltaMs (⟨2, 1, 2, 0, 0⟩ : Peak) ⟨3, 2, 3, 0, 0⟩ = 1000 := by
    unfold deltaMs; exact goRoundToNat_eq _ 1000 (by norm_num) (by norm_num)
  have ha0 : anchorTimeMsOf (⟨0, 1, 0, 0, 0⟩ : Peak) = 0 := by
    unfold anchorTimeMsOf; exact goRoundToNat_eq _ 0 (by norm_num) (by norm_num)
  have ha1 : anchorTimeMsOf (⟨1, 2, 1, 0, 0⟩ : Peak) = 1000 := by
    unfold anchorTimeMsOf; exact goRoundToNat_eq _ 1000 (by norm_num) (by norm_num)
  have ha2 : anchorTimeMsOf (⟨2, 1, 2, 0, 0⟩ : Peak) = 2000 := by
    unfold anchorTimeMsOf; exact goRoundToNat_eq _ 2000 (by norm_num) (by norm_num)
  have hc01 : createAddress (⟨0, 1, 0, 0, 0⟩ : Peak) ⟨1, 2, 1, 0, 0⟩ =
      some 8422376 := by
    rw [createAddress_eval _ _ (by omega) (by omega) (by norm_num) (by norm_num), hd01]
    norm_num
  have hc02 : createAddress (⟨0, 1, 0, 0, 0⟩ : Peak) ⟨2, 1, 2, 0, 0⟩ =
      some 8406992 := by
    rw [createAddress_eval _ _ (by omega) (by omega) (by norm_num) (by norm_num), hd02]
    norm_num
  have hc03 : createAddress (⟨0, 1, 0, 0, 0⟩ : Peak) ⟨3, 2, 3, 0, 0⟩ =
      some 8424376 := by
    rw [createAddress_eval _ _ (by omega) (by omega) (by norm_num) (by norm_num), hd03]
    norm_num
  have hc12 : createAddress (⟨1, 2, 1, 0, 0⟩ : Peak) ⟨2, 1, 2, 0, 0⟩ =
      some 16794600 := by
    rw [createAddress_eval _ _ (by omega) (by omega) (by norm_num) (by norm_num), hd12]
    norm_num
  have hc13 : createAddress (⟨1, 2, 1, 0, 0⟩ : Peak) ⟨3, 2, 3, 0, 0⟩ =
      some 16811984 := by
    rw [createAddress_eval _ _ (by omega) (by omega) (by norm_num) (by norm_num), hd13]
    norm_num
  have hc23 : createAddress (⟨2, 1, 2, 0, 0⟩ : Peak) ⟨3, 2, 3, 0, 0⟩ =
      some 8422376 := by
    rw [createAddress_eval _ _ (by omega) (by omega) (by norm_num) (by norm_num), hd23]
    norm_num
  have hsort : List.insertionSort timeLe
      [(⟨0, 1, 0, 0, 0⟩ : Peak), ⟨1, 2, 1, 0, 0⟩, ⟨2, 1, 2, 0, 0⟩, ⟨3, 2, 3, 0, 0⟩] =
      [⟨0, 1, 0, 0, 0⟩, ⟨1, 2, 1, 0, 0⟩, ⟨2, 1, 2, 0, 0⟩, ⟨3, 2, 3, 0, 0⟩] := by
    norm_num [List.insertionSort, List.orderedInsert, timeLe]
  have hem : pairEmissions
      [(⟨0, 1, 0, 0, 0⟩ : Peak), ⟨1, 2, 1, 0, 0⟩, ⟨2, 1, 2, 0, 0⟩, ⟨3, 2, 3, 0, 0⟩] =
      [(8422376, ⟨0, 1, 0, 0, 0⟩, ⟨1, 2, 1, 0, 0⟩),
       (8406992, ⟨0, 1, 0, 0, 0⟩, ⟨2, 1, 2, 0, 0⟩),
       (8424376, ⟨0, 1, 0, 0, 0⟩, ⟨3, 2, 3, 0, 0⟩),
       (16794600, ⟨1, 2, 1, 0, 0⟩, ⟨2, 1, 2, 0, 0⟩),
       (16811984, ⟨1, 2, 1, 0, 0⟩, ⟨3, 2, 3, 0, 0⟩),
       (8422376, ⟨2, 1, 2, 0, 0⟩, ⟨3, 2, 3, 0, 0⟩)] := by
    simp [pairEmissions, pairTargets, hc01, hc02, hc03, hc12, hc13, hc23, FanOut]
  constructor
  · simp only [queryVotes]
    rw [hsort, hem]
    norm_num [List.foldl, bumpVote, ha0, ha1, ha2]
  · simp only [votesFromHashList, queryHashesFirstWins]
    rw [hsort, hem]
    norm_num [List.foldl, List.any, bumpVote, ha0, ha1, ha2]

/-- Inner voting loop of queryVotes counted pointwise. -/
theorem foldl_bump_inner (l : List Couple) (v : String → ℤ → ℕ) (qm : ℕ)
    (s : String) (o : ℤ) :
    (l.foldl (fun v2 c => bumpVote v2 c.SongID ((c.AnchorTimeMs : ℤ) - (qm : ℤ))) v) s o =
      v s o + l.countP (fun c =>
        c.SongID == s && ((c.AnchorTimeMs : ℤ) - (qm : ℤ) == o)) := by
  induction l generalizing v with
  | nil => simp
  | cons c cs ih =>
    rw [List.foldl_cons, ih, List.countP_cons]
    unfold bumpVote
    by_cases hc : s = c.SongID ∧ o = (c.AnchorTimeMs : ℤ) - (qm : ℤ)
    · rw [if_pos hc]
      have hpred : (c.SongID == s && ((c.AnchorTimeMs : ℤ) - (qm : ℤ) == o)) = true := by
        simp [hc.1.symm, hc.2.symm]
      rw [hpred]
      simp only [eq_self_iff_true, if_true]
      omega
    · rw [if_neg hc]
      have hpred : (c.SongID == s && ((c.AnchorTimeMs : ℤ) - (qm : ℤ) == o)) = false := by
        rw [Bool.and_eq_false_iff]
        by_cases h1 : c.SongID = s
        · right
          have h2 : ¬ ((c.AnchorTimeMs : ℤ) - (qm : ℤ) = o) := fun h3 => hc ⟨h1.symm, h3.symm⟩
          simp [h2]
        · left
          simp [h1]
      rw [hpred]
      simp only [Bool.false_eq_true, if_false]
      omega

/-- Outer voting loop of queryVotes counted pointwise. -/
theorem foldl_bump_outer (es : List (ℕ × Peak × Peak)) (v : String → ℤ → ℕ)
    (db : ℕ → List Couple) (s : String) (o : ℤ) :
    (es.foldl
      (fun v e =>
        (db e.1).foldl
          (fun v2 c =>
            bumpVote v2 c.SongID ((c.AnchorTimeMs : ℤ) - (anchorTimeMsOf e.2.1 : ℤ)))
          v)
      v) s o =
      v s o + (es.map (fun e => (db e.1).countP (fun c =>
        c.SongID == s &&
          ((c.AnchorTimeMs : ℤ) - (anchorTimeMsOf e.2.1 : ℤ) == o)))).sum := by
  induction es generalizing v with
  | nil => simp
  | cons e es ih =>
    rw [List.foldl_cons, ih, List.map_cons, List.sum_cons, foldl_bump_inner]
    omega

/-- Claim C4 amended: the in-process query path does not reduce repeated
addresses to their first occurrence. Every accepted pair occurrence votes with
the anchor time of that very occurrence: the vote count of (song, offset) is the
total number of (emitted occurrence, database couple) pairs whose song matches
and whose time difference is that offset. -/
theorem claim4_amended (queryPeaks : List Peak) (db : ℕ → List Couple)
    (s : String) (o : ℤ) :
    queryVotes queryPeaks db s o =
      ((pairEmissions (List.insertionSort timeLe queryPeaks)).map
        (fun e => (db e.1).countP (fun c =>
          c.SongID == s &&
            ((c.AnchorTimeMs : ℤ) - (anchorTimeMsOf e.2.1 : ℤ) == o)))).sum := by
  unfold queryVotes
  rw [foldl_bump_outer]
  omega

/-! Claim C5: wire-inbound hash validation (server request types). The
embedding follows the revision whose ToHashMap skips invalid hashes with a
counter; isValidHash below is the function that ToHashMap calls. -/

/-- isValidHash: lightweight structural validation of a 32-bit address, in the
form used by ToHashMap. -/
def isValidHash (hash : ℕ) : Bool :=
  let deltaTime := hash &&& 0x3FFF
  let targetFreq := (hash >>> 14) &&& 0x1FF
  let anchorFreq := (hash >>> 23) &&& 0x1FF
  if deltaTime < 10 ∨ deltaTime > 15000 then false
  else if anchorFreq = 0 ∧ targetFreq = 0 then false
  else if anchorFreq > 511 ∨ targetFreq > 511 then false
  else true

/-- Go map assignment: overwrite the entry with the key if present, else append. -/
def insertHash (m : List (ℕ × ℕ)) (k v : ℕ) : List (ℕ × ℕ) :=
  match m with
  | [] => [(k, v)]
  | (k2, v2) :: rest => if k2 = k then (k, v) :: rest else (k2, v2) :: insertHash rest k v

/-- ToHashMap: keep the valid hashes, skip the invalid ones, and fail when every
hash was invalid. The request map is modelled as the list of already-parsed
(hash, anchorTime) pairs. -/
def ToHashMap (hashes : List (ℕ × ℕ)) : Except String (List (ℕ × ℕ)) :=
  let result := hashes.foldl
    (fun acc e => if isValidHash e.1 then insertHash acc e.1 e.2 else acc) []
  if result.length = 0 then Except.error "all hashes were invalid"
  else Except.ok result

/-- insertHash never returns the empty list. -/
theorem insertHash_ne_nil (m : List (ℕ × ℕ)) (k v : ℕ) : insertHash m k v ≠ [] := by
  cases m with
  | nil => simp [insertHash]
  | cons a rest =>
    simp only [insertHash]
    split_ifs <;> simp

/-- Elements of insertHash come from the map or are the inserted pair. -/
theorem mem_insertHash {m : List (ℕ × ℕ)} {k v : ℕ} {x : ℕ × ℕ}
    (h : x ∈ insertHash m k v) : x = (k, v) ∨ x ∈ m := by
  induction m with
  | nil => simpa [insertHash] using h
  | cons a rest ih =>
    simp only [insertHash] at h
    by_cases hk : a.1 = k
    · rw [if_pos hk] at h
      rcases List.mem_cons.mp h with h1 | h1
      · exact Or.inl h1
      · exact Or.inr (List.mem_cons_of_mem _ h1)
    · rw [if_neg hk] at h
      rcases List.mem_cons.mp h with h1 | h1
      · exact Or.inr (h1 ▸ List.mem_cons_self _ _)
      · rcases ih h1 with h2 | h2
        · exact Or.inl h2
        · exact Or.inr (List.mem_cons_of_mem _ h2)

/-- The accumulating loop of ToHashMap produces the empty map exactly when it
started empty and every hash was invalid. -/
theorem foldl_toHash_nil_iff (hashes : List (ℕ × ℕ)) (acc : List (ℕ × ℕ)) :
    hashes.foldl
      (fun acc e => if isValidHash e.1 then insertHash acc e.1 e.2 else acc) acc = [] ↔
    (acc = [] ∧ ∀ e ∈ hashes, isValidHash e.1 = false) := by
  induction hashes generalizing acc with
  | nil => simp
  | cons e es ih =>
    rw [List.foldl_cons]
    by_cases hv : isValidHash e.1 = true
    · rw [if_pos hv, ih]
      apply iff_of_false
      · rintro ⟨habs, -⟩
        exact insertHash_ne_nil _ _ _ habs
      · rintro ⟨-, hall⟩
        have := hall e (List.mem_cons_self _ _)
        rw [hv] at this
        exact Bool.noConfusion this
    · rw [if_neg hv, ih]
      have hv2 : isValidHash e.1 = false := Bool.not_eq_true _ ▸ hv
      simp [List.forall_mem_cons, hv2]

/-- Every element surviving the accumulating loop of ToHashMap is either from the
initial map or a valid pair of the input. -/
theorem mem_foldl_toHash (hashes : List (ℕ × ℕ)) (acc : List (ℕ × ℕ)) (x : ℕ × ℕ)
    (hx : x ∈ hashes.foldl
      (fun acc e => if isValidHash e.1 then insertHash acc e.1 e.2 else acc) acc) :
    x ∈ acc ∨ (isValidHash x.1 = true ∧ x ∈ hashes) := by
  induction hashes generalizing acc with
  | nil => exact Or.inl (by simpa using hx)
  | cons e es ih =>
    rw [List.foldl_cons] at hx
    by_cases hv : isValidHash e.1 = true
    · rw [if_pos hv] at hx
      rcases ih _ hx with h | h
      · rcases mem_insertHash h with h1 | h1
        · refine Or.inr ⟨?_, ?_⟩
          · rw [h1]
            exact hv
          · rw [h1, Prod.mk.eta]
            exact List.mem_cons_self _ _
        · exact Or.inl h1
      · exact Or.inr ⟨h.1, List.mem_cons_of_mem _ h.2⟩
    · rw [if_neg hv] at hx
      rcases ih _ hx with h | h
      · exact Or.inl h
      · exact Or.inr ⟨h.1, List.mem_cons_of_mem _ h.2⟩

/-- Counterexample to claim C5: the hash 42025060 has anchor-frequency field
equal to its target-frequency field (both 5) and delta-time field 100, so the
claim says it is rejected; yet the validation accepts it and ToHashMap keeps
it. -/
theorem claim5_counterexample :
    (42025060 >>> 23) &&& 0x1FF = (42025060 >>> 14) &&& 0x1FF ∧
    42025060 &&& 0x3FFF = 100 ∧
    isValidHash 42025060 = true ∧
    ToHashMap [(42025060, 7)] = Except.ok [(42025060, 7)] :=
  ⟨by decide, by decide, by decide, rfl⟩

/-- Claim C5 amended: a hash is rejected exactly when its delta-time field lies
outside [10, 15000] (in particular when it is zero) or its anchor-frequency and
target-frequency fields are both zero; rejected hashes are skipped (every kept
pair is a valid pair of the request), and a request in which every hash is
invalid fails with the all-hashes-invalid error. -/
theorem claim5_amended (hashes : List (ℕ × ℕ)) :
    (∀ h : ℕ, isValidHash h = false ↔
      (h &&& 0x3FFF < 10 ∨ h &&& 0x3FFF > 15000 ∨
        ((h >>> 23) &&& 0x1FF = 0 ∧ (h >>> 14) &&& 0x1FF = 0))) ∧
    (ToHashMap hashes = Except.error "all hashes were invalid" ↔
      ∀ e ∈ hashes, isValidHash e.1 = false) ∧
    (∀ m, ToHashMap hashes = Except.ok m →
      ∀ e ∈ m, isValidHash e.1 = true ∧ e ∈ hashes) := by
  refine ⟨?_, ?_, ?_⟩
  · intro h
    have hanc : (h >>> 23) &&& 0x1FF ≤ 511 := Nat.and_le_right
    have htar : (h >>> 14) &&& 0x1FF ≤ 511 := Nat.and_le_right
    simp only [isValidHash]
    split_ifs with c1 c2 c3
    · exact iff_of_true rfl (by tauto)
    · exact iff_of_true rfl (Or.inr (Or.inr c2))
    · omega
    · apply iff_of_false
      · simp
      · tauto
  · simp only [ToHashMap]
    by_cases hres : (hashes.foldl
        (fun acc e => if isValidHash e.1 then insertHash acc e.1 e.2 else acc) []).length = 0
    · rw [if_pos hres]
      have hnil := List.length_eq_zero.mp hres
      exact iff_of_true rfl ((foldl_toHash_nil_iff hashes []).mp hnil).2
    · rw [if_neg hres]
      apply iff_of_false
      · intro habs
        exact Except.noConfusion habs
      · intro hall
        exact hres (List.length_eq_zero.mpr
          ((foldl_toHash_nil_iff hashes []).mpr ⟨rfl, hall⟩))
  · intro m hok e hem
    simp only [ToHashMap] at hok
    by_cases hres : (hashes.foldl
        (fun acc e => if isValidHash e.1 then insertHash acc e.1 e.2 else acc) []).length = 0
    · rw [if_pos hres] at hok
      exact Except.noConfusion hok
    · rw [if_neg hres] at hok
      have hm := (Except.ok.injEq _ _).mp hok
      rcases mem_foldl_toHash hashes [] e (hm ▸ hem) with h | h
      · exact absurd h (List.not_mem_nil _)
      · exact h

/-! Claim C6: the storage layer (sqlite client). The fingerprint table is
modelled as the list of its rows in table order; a WHERE clause is a filter. -/

/-- One row of the fingerprint table. -/
structure FpRow where
  Hash : ℕ
  SongID : String
  AnchorTimeMs : ℕ
deriving DecidableEq, Repr

/-- GetCouplesByHash: SELECT the rows with the given hash and convert each to a
couple, in table order. -/
def GetCouplesByHash (rows : List FpRow) (hash : ℕ) : List Couple :=
  (rows.filter (fun r => r.Hash = hash)).map (fun r => ⟨r.SongID, r.AnchorTimeMs⟩)

/-- Go map append: result[h] = append(result[h], c) on an association list. -/
def insertCouple (m : List (ℕ × List Couple)) (h : ℕ) (c : Couple) :
    List (ℕ × List Couple) :=
  match m with
  | [] => [(h, [c])]
  | (k, cs) :: rest =>
    if k = h then (k, cs ++ [c]) :: rest else (k, cs) :: insertCouple rest h c

/-- GetCouplesByHashes: one SELECT with an IN clause over the hash list, then the
rows are grouped by hash in scan order. -/
def GetCouplesByHashes (rows : List FpRow) (hashes : List ℕ) :
    List (ℕ × List Couple) :=
  (rows.filter (fun r => r.Hash ∈ hashes)).foldl
    (fun m r => insertCouple m r.Hash ⟨r.SongID, r.AnchorTimeMs⟩) []

/-- Reading the grouped result map: the bucket of the first matching key, empty
when the key is absent. -/
def lookupCouples (m : List (ℕ × List Couple)) (h : ℕ) : List Couple :=
  match m.find? (fun e => e.1 = h) with
  | some e => e.2
  | none => []

/-- Reading after a single map append. -/
theorem lookupCouples_insertCouple (m : List (ℕ × List Couple)) (h : ℕ) (c : Couple)
    (k : ℕ) :
    lookupCouples (insertCouple m h c) k =
      if k = h then lookupCouples m k ++ [c] else lookupCouples m k := by
  induction m with
  | nil =>
    by_cases hk : k = h
    · simp [insertCouple, lookupCouples, hk]
    · simp [insertCouple, lookupCouples, hk, Ne.symm hk]
  | cons e rest ih =>
    obtain ⟨k2, cs⟩ := e
    simp only [insertCouple]
    by_cases h2 : k2 = h
    · rw [if_pos h2]
      by_cases hk : k = h
      · simp [lookupCouples, h2, hk]
      · have hne : ¬ k2 = k := by rw [h2]; exact fun hh => hk hh.symm
        simp [lookupCouples, hk, hne]
    · rw [if_neg h2]
      by_cases h3 : k2 = k
      · have hk : ¬ k = h := fun hkh => h2 (h3.trans hkh)
        simp [lookupCouples, h3, hk]
      · simp only [lookupCouples] at ih ⊢
        rw [List.find?_cons_of_neg _ (by simpa using h3),
          List.find?_cons_of_neg _ (by simpa using h3)]
        exact ih

/-- Key presence after a single map append. -/
theorem mem_keys_insertCouple (m : List (ℕ × List Couple)) (h : ℕ) (c : Couple)
    (k : ℕ) :
    (∃ e ∈ insertCouple m h c, e.1 = k) ↔ (k = h ∨ ∃ e ∈ m, e.1 = k) := by
  induction m with
  | nil =>
    constructor
    · rintro ⟨e, he, hk⟩
      simp [insertCouple] at he
      rw [he] at hk
      exact Or.inl hk.symm
    · rintro (rfl | ⟨e, he, hk⟩)
      · exact ⟨(k, [c]), by simp [insertCouple], rfl⟩
      · exact absurd he (List.not_mem_nil _)
  | cons e2 rest ih =>
    obtain ⟨k2, cs⟩ := e2
    simp only [insertCouple]
    by_cases h2 : k2 = h
    · rw [if_pos h2]
      constructor
      · rintro ⟨e, he, hk⟩
        rcases List.mem_cons.mp he with h3 | h3
        · rw [h3] at hk
          rw [h2] at hk
          exact Or.inl hk.symm
        · exact Or.inr ⟨e, List.mem_cons_of_mem _ h3, hk⟩
      · rintro (rfl | ⟨e, he, hk⟩)
        · exact ⟨(k2, cs ++ [c]), List.mem_cons_self _ _, h2⟩
        · rcases List.mem_cons.mp he with h3 | h3
          · refine ⟨(k2, cs ++ [c]), List.mem_cons_self _ _, ?_⟩
            rw [← hk, h3]
          · exact ⟨e, List.mem_cons_of_mem _ h3, hk⟩
    · rw [if_neg h2]
      constructor
      · rintro ⟨e, he, hk⟩
        rcases List.mem_cons.mp he with h3 | h3
        · exact Or.inr ⟨e, h3 ▸ List.mem_cons_self _ _, hk⟩
        · rcases ih.mp ⟨e, h3, hk⟩ with h4 | ⟨e2, he2, hk2⟩
          · exact Or.inl h4
          · exact Or.inr ⟨e2, List.mem_cons_of_mem _ he2, hk2⟩
      · rintro (rfl | ⟨e, he, hk⟩)
        · obtain ⟨e, he, hk⟩ := ih.mpr (Or.inl rfl)
          exact ⟨e, List.mem_cons_of_mem _ he, hk⟩
        · rcases List.mem_cons.mp he with h3 | h3
          · exact ⟨(k2, cs), List.mem_cons_self _ _, by rw [← hk, h3]⟩
          · obtain ⟨e3, he3, hk3⟩ := ih.mpr (Or.inr ⟨e, h3, hk⟩)
            exact ⟨e3, List.mem_cons_of_mem _ he3, hk3⟩

/-- Reading the grouping fold: initial buckets followed by the rows with that
hash, in scan order. -/
theorem lookupCouples_foldl (rs : List FpRow) (m : List (ℕ × List Couple)) (k : ℕ) :
    lookupCouples
      (rs.foldl (fun m r => insertCouple m r.Hash ⟨r.SongID, r.AnchorTimeMs⟩) m) k =
      lookupCouples m k ++
        (rs.filter (fun r => r.Hash = k)).map (fun r => ⟨r.SongID, r.AnchorTimeMs⟩) := by
  induction rs generalizing m with
  | nil => simp
  | cons r rs ih =>
    rw [List.foldl_cons, ih, lookupCouples_insertCouple, List.filter_cons]
    by_cases hk : k = r.Hash
    · rw [if_pos hk]
      have : (decide (r.Hash = k)) = true := by simp [hk]
      rw [this]
      simp
    · rw [if_neg hk]
      have : (decide (r.Hash = k)) = false := by simp; exact fun hh => hk hh.symm
      rw [this]
      simp

/-- Key presence after the grouping fold. -/
theorem mem_keys_foldl (rs : List FpRow) (m : List (ℕ × List Couple)) (k : ℕ) :
    (∃ e ∈ rs.foldl (fun m r => insertCouple m r.Hash ⟨r.SongID, r.AnchorTimeMs⟩) m,
        e.1 = k) ↔
      ((∃ e ∈ m, e.1 = k) ∨ ∃ r ∈ rs, r.Hash = k) := by
  induction rs generalizing m with
  | nil => simp
  | cons r rs ih =>
    rw [List.foldl_cons, ih, mem_keys_insertCouple]
    constructor
    · rintro ((rfl | h) | h)
      · exact Or.inr ⟨r, List.mem_cons_self _ _, rfl⟩
      · exact Or.inl h
      · obtain ⟨r2, hr2, hk2⟩ := h
        exact Or.inr ⟨r2, List.mem_cons_of_mem _ hr2, hk2⟩
    · rintro (h | ⟨r2, hr2, hk2⟩)
      · exact Or.inl (Or.inr h)
      · rcases List.mem_cons.mp hr2 with h3 | h3
        · exact Or.inl (Or.inl (by rw [← hk2, h3]))
        · exact Or.inr ⟨r2, h3, hk2⟩

/-- The double filter collapses: selecting by the IN clause and then by one hash
is selecting by that hash when it is in the clause, and nothing otherwise. -/
theorem filter_in_filter (rows : List FpRow) (hashes : List ℕ) (h : ℕ) :
    (rows.filter (fun r => r.Hash ∈ hashes)).filter (fun r => r.Hash = h) =
      if h ∈ hashes then rows.filter (fun r => r.Hash = h) else [] := by
  induction rows with
  | nil => simp
  | cons r rs ih =>
    by_cases hr : r.Hash = h
    · by_cases hh : h ∈ hashes
      · rw [if_pos hh] at ih ⊢
        simp [List.filter_cons, hr, hh, ih]
      · rw [if_neg hh] at ih ⊢
        have hmem : r.Hash ∉ hashes := by rw [hr]; exact hh
        simp [List.filter_cons, hmem, ih]
    · by_cases hmem : r.Hash ∈ hashes
      · simp [List.filter_cons, hmem, hr, ih]
      · simp [List.filter_cons, hmem, hr, ih]

/-- Claim C6: the batched lookup agrees with the per-hash lookup. For every hash
h, the bucket of h in GetCouplesByHashes is exactly GetCouplesByHash h when h is
in the query list (and empty otherwise), and h appears as a key exactly when it
is queried and its per-hash lookup is non-empty. Buckets are equal as lists, so
in particular as multisets. -/
theorem claim6_batch_lookup_equivalence (rows : List FpRow) (hashes : List ℕ)
    (h : ℕ) :
    lookupCouples (GetCouplesByHashes rows hashes) h =
      (if h ∈ hashes then GetCouplesByHash rows h else []) ∧
    ((∃ e ∈ GetCouplesByHashes rows hashes, e.1 = h) ↔
      (h ∈ hashes ∧ GetCouplesByHash rows h ≠ [])) := by
  constructor
  · unfold GetCouplesByHashes
    rw [lookupCouples_foldl]
    have hnil : lookupCouples [] h = [] := rfl
    rw [hnil, List.nil_append, filter_in_filter]
    by_cases hh : h ∈ hashes
    · rw [if_pos hh, if_pos hh]
      rfl
    · rw [if_neg hh, if_neg hh]
      rfl
  · unfold GetCouplesByHashes
    rw [mem_keys_foldl]
    constructor
    · rintro (⟨e, he, -⟩ | ⟨r, hr, hk⟩)
      · exact absurd he (List.not_mem_nil _)
      · have hmem := (List.mem_filter.mp hr).2
        have hh : h ∈ hashes := by
          simp at hmem
          exact hk ▸ hmem
        refine ⟨hh, ?_⟩
        unfold GetCouplesByHash
        simp only [ne_eq, List.map_eq_nil_iff, List.filter_eq_nil_iff]
        push_neg
        exact ⟨r, (List.mem_filter.mp hr).1, by simp [hk]⟩
    · rintro ⟨hh, hne⟩
      unfold GetCouplesByHash at hne
      simp only [ne_eq, List.map_eq_nil_iff, List.filter_eq_nil_iff] at hne
      push_neg at hne
      obtain ⟨r, hr, hk⟩ := hne
      simp at hk
      exact Or.inr ⟨r, List.mem_filter.mpr ⟨hr, by simp [hk, hh]⟩, hk⟩

/-! Claim C7: best-effort rollback in AddSong. The persistent state is the pair
of table row lists; RegisterSong appends the new song row, StoreFingerprints
inserts rows (possibly only the batches before the failing one), and on failure
AddSong calls DeleteSongByID and returns the wrapped store error. -/

/-- One row of the songs table. -/
structure Song where
  ID : String
  Title : String
  Artist : String
  YouTubeID : String
  DurationMs : ℕ
deriving DecidableEq, Repr

/-- The persisted state: the two tables as row lists. -/
structure DBState where
  songs : List Song
  fps : List FpRow
deriving DecidableEq, Repr

/-- DeleteSongByID: one transaction deleting every fingerprint row with the
given song id and then the song row itself. -/
def DeleteSongByID (st : DBState) (songID : String) : DBState :=
  { songs := st.songs.filter (fun s => ¬ s.ID = songID),
    fps := st.fps.filter (fun r => ¬ r.SongID = songID) }

/-- GetSongByID: the first song row with the given id. -/
def GetSongByID (st : DBState) (songID : String) : Option Song :=
  st.songs.find? (fun s => s.ID = songID)

/-- The failing path of AddSong after a successful RegisterSong: the song row was
created, the batches before the failing one may have inserted partialRows, then
StoreFingerprints reports storeErr; AddSong deletes the song (rollback) and
returns the wrapped store error. -/
def AddSongStoreFailure (st : DBState) (song : Song) (partialRows : List FpRow)
    (storeErr : String) : String × DBState :=
  let registered : DBState := { st with songs := st.songs ++ [song] }
  let inserted : DBState := { registered with fps := registered.fps ++ partialRows }
  ("failed to store fingerprints: " ++ storeErr, DeleteSongByID inserted song.ID)

/-- Claim C7: when the reference id is fresh and every partially inserted row
carries it, the rollback path returns the original store error (wrapped), the
state is restored to the pre-ingest state, and a follow-up lookup of the id
finds no record. -/
theorem claim7_rollback_on_store_failure (st : DBState) (song : Song)
    (partialRows : List FpRow) (storeErr : String)
    (hfresh : ∀ s ∈ st.songs, s.ID ≠ song.ID)
    (hfps : ∀ r ∈ st.fps, r.SongID ≠ song.ID)
    (hrows : ∀ r ∈ partialRows, r.SongID = song.ID) :
    (AddSongStoreFailure st song partialRows storeErr).1 =
      "failed to store fingerprints: " ++ storeErr ∧
    (AddSongStoreFailure st song partialRows storeErr).2 = st ∧
    GetSongByID (AddSongStoreFailure st song partialRows storeErr).2 song.ID = none := by
  have hstate : (AddSongStoreFailure st song partialRows storeErr).2 = st := by
    simp only [AddSongStoreFailure, DeleteSongByID]
    have hsongs : (st.songs ++ [song]).filter (fun s => ¬ s.ID = song.ID) = st.songs := by
      rw [List.filter_append]
      have h1 : st.songs.filter (fun s => ¬ s.ID = song.ID) = st.songs :=
        List.filter_eq_self.mpr (fun s hs => by simpa using hfresh s hs)
      have h2 : [song].filter (fun s : Song => ¬ s.ID = song.ID) = [] := by
        simp
      rw [h1, h2, List.append_nil]
    have hrows2 : (st.fps ++ partialRows).filter (fun r => ¬ r.SongID = song.ID) =
        st.fps := by
      rw [List.filter_append]
      have h1 : st.fps.filter (fun r => ¬ r.SongID = song.ID) = st.fps :=
        List.filter_eq_self.mpr (fun r hr => by simpa using hfps r hr)
      have h2 : partialRows.filter (fun r => ¬ r.SongID = song.ID) = [] :=
        List.filter_eq_nil_iff.mpr (fun r hr => by simpa using hrows r hr)
      rw [h1, h2, List.append_nil]
    rw [hsongs, hrows2]
  refine ⟨rfl, hstate, ?_⟩
  rw [hstate]
  unfold GetSongByID
  rw [List.find?_eq_none]
  intro s hs
  simpa using hfresh s hs

/-- Witness for claim C7 at a concrete pre-ingest state with one unrelated song. -/
theorem claim7_witness :
    (AddSongStoreFailure
        ⟨[⟨"other", "t0", "a0", "", 500⟩], [⟨9, "other", 1⟩]⟩
        ⟨"id1", "t", "a", "", 1000⟩ [⟨5, "id1", 0⟩, ⟨6, "id1", 20⟩] "disk full").2 =
      ⟨[⟨"other", "t0", "a0", "", 500⟩], [⟨9, "other", 1⟩]⟩ ∧
    GetSongByID
      (AddSongStoreFailure
        ⟨[⟨"other", "t0", "a0", "", 500⟩], [⟨9, "other", 1⟩]⟩
        ⟨"id1", "t", "a", "", 1000⟩ [⟨5, "id1", 0⟩, ⟨6, "id1", 20⟩] "disk full").2
      "id1" = none := by
  have h := claim7_rollback_on_store_failure
    ⟨[⟨"other", "t0", "a0", "", 500⟩], [⟨9, "other", 1⟩]⟩
    ⟨"id1", "t", "a", "", 1000⟩ [⟨5, "id1", 0⟩, ⟨6, "id1", 20⟩] "disk full"
    (by intro s hs; simp at hs; rw [hs]; simp)
    (by intro r hr; simp at hr; rw [hr]; simp)
    (by intro r hr; simp at hr; rcases hr with h1 | h1 <;> rw [h1])
  exact ⟨h.2.1, h.2.2⟩

/-! Claim C8: calculateConfidence from service.go. The float64 arithmetic is
modelled over the reals; math.Exp is Real.exp. -/

/-- calculateConfidence: sigmoid-scaled match ratio with a boost for strong
matches and a penalty for very low match counts. -/
noncomputable def calculateConfidence (matchCount queryFPCount dbFPCount : ℕ) : ℝ :=
  if matchCount = 0 ∨ queryFPCount = 0 ∨ dbFPCount = 0 then 0
  else
    let minFPCount := if dbFPCount < queryFPCount then dbFPCount else queryFPCount
    let frac : ℝ := (matchCount : ℝ) / (minFPCount : ℝ)
    let steepness : ℝ := 20
    let halfPoint : ℝ := 0.15
    let exponent : ℝ := -steepness * (frac - halfPoint)
    let confidence : ℝ := 100 / (1 + Real.exp exponent)
    let confidence2 : ℝ :=
      if frac > 0.30 then min 100 (confidence + (frac - 0.30) * 50) else confidence
    if matchCount < 5 then confidence2 * ((matchCount : ℝ) / 5) else confidence2

/-- Claim C8: for all nonnegative integer inputs the confidence lies in
[0, 100], and it equals 0 exactly when one of the three counts is 0. -/
theorem claim8_confidence_bounds (matchCount queryFPCount dbFPCount : ℕ) :
    0 ≤ calculateConfidence matchCount queryFPCount dbFPCount ∧
    calculateConfidence matchCount queryFPCount dbFPCount ≤ 100 ∧
    (calculateConfidence matchCount queryFPCount dbFPCount = 0 ↔
      (matchCount = 0 ∨ queryFPCount = 0 ∨ dbFPCount = 0)) := by
  by_cases hz : matchCount = 0 ∨ queryFPCount = 0 ∨ dbFPCount = 0
  · unfold calculateConfidence
    rw [if_pos hz]
    exact ⟨le_refl 0, by norm_num, iff_of_true rfl hz⟩
  · simp only [calculateConfidence]
    rw [if_neg hz]
    push_neg at hz
    obtain ⟨hm0, hq0, hd0⟩ := hz
    set minFP : ℕ := if dbFPCount < queryFPCount then dbFPCount else queryFPCount
      with hminFP
    have hminpos : 0 < minFP := by rw [hminFP]; split_ifs <;> omega
    set frac : ℝ := (matchCount : ℝ) / (minFP : ℝ) with hfrac
    have hfracpos : 0 < frac := by
      rw [hfrac]
      apply div_pos
      · exact_mod_cast Nat.pos_of_ne_zero hm0
      · exact_mod_cast hminpos
    set c0 : ℝ := 100 / (1 + Real.exp (-20 * (frac - 0.15))) with hc0
    have hexp : 0 < Real.exp (-20 * (frac - 0.15)) := Real.exp_pos _
    have hc0pos : 0 < c0 := by rw [hc0]; positivity
    have hc0le : c0 ≤ 100 := by
      rw [hc0, div_le_iff₀ (by positivity)]
      nlinarith
    set c2 : ℝ := if frac > 0.30 then min 100 (c0 + (frac - 0.30) * 50) else c0
      with hc2
    have hc2pos : 0 < c2 := by
      rw [hc2]
      split_ifs with hb
      · refine lt_min (by norm_num) ?_
        nlinarith
      · exact hc0pos
    have hc2le : c2 ≤ 100 := by
      rw [hc2]
      split_ifs with hb
      · exact min_le_left _ _
      · exact hc0le
    set final : ℝ := if matchCount < 5 then c2 * ((matchCount : ℝ) / 5) else c2
      with hfinal
    have hfinalpos : 0 < final := by
      rw [hfinal]
      split_ifs with h5
      · refine mul_pos hc2pos (div_pos ?_ (by norm_num))
        exact_mod_cast Nat.pos_of_ne_zero hm0
      · exact hc2pos
    have hfinalle : final ≤ 100 := by
      rw [hfinal]
      split_ifs with h5
      · have hm5 : (matchCount : ℝ) / 5 ≤ 1 := by
          rw [div_le_one (by norm_num)]
          exact_mod_cast Nat.le_of_lt h5
        calc c2 * ((matchCount : ℝ) / 5) ≤ c2 * 1 :=
              mul_le_mul_of_nonneg_left hm5 hc2pos.le
          _ = c2 := mul_one c2
          _ ≤ 100 := hc2le
      · exact hc2le
    exact ⟨hfinalpos.le, hfinalle,
      iff_of_false (ne_of_gt hfinalpos) (by push_neg; exact ⟨hm0, hq0, hd0⟩)⟩

/-! Claim C9: ExtractPeaks from peaks.go. Magnitudes are rationals; the map
m to 20 * log10(m + 1e-10) used for thresholds is transcendental, so it is a
parameter dB of the embedding: the algorithm only feeds magnitudes through it
and compares the results, and the claims hold for every such map. -/

/-- STFT window length (spectrogram.go WindowSize). -/
def WindowSize : ℕ := 1024

/-- STFT hop length (spectrogram.go HopSize). -/
def HopSize : ℕ := 256

/-- The band construction loop: bands [start, min(2 start, nBins)) for
start = 10, 20, 40, ... while start < nBins, stopping after the band that
reaches nBins. The loop starts at 10 and doubles, so 10 ≤ start is an invariant;
it appears in the guard to make termination structural. -/
def bandsAux (nBins : ℕ) (start : ℕ) : List (ℕ × ℕ) :=
  if h : 10 ≤ start ∧ start < nBins then
    let e := min (start * 2) nBins
    if e = nBins then [(start, e)]
    else (start, e) :: bandsAux nBins (start * 2)
  else []
termination_by nBins - start
decreasing_by omega

/-- The full band list: the low band [0, min(10, nBins)) followed by the
logarithmic bands. -/
def bandsList (nBins : ℕ) : List (ℕ × ℕ) := (0, min 10 nBins) :: bandsAux nBins 10

/-- The strongest bin of one band in one frame: scan the band left to right,
keep the first strictly greater magnitude; (0, minBin) when the band starts
beyond the spectrum. -/
def bandWinner (frame : List ℚ) (nBins : ℕ) (b : ℕ × ℕ) : ℚ × ℕ :=
  if nBins ≤ b.1 then (0, b.1)
  else
    let maxBin := min b.2 nBins
    (List.range' b.1 (maxBin - b.1)).foldl
      (fun acc i => if frame.getD i 0 > acc.1 then (frame.getD i 0, i) else acc)
      (0, b.1)

/-- The 2-D local-maximum check over [t-1, t+1] x [bin-3, bin+3], bounds-clipped
and with the centre excluded: no neighbour may strictly exceed the magnitude. -/
def isLocalMax (spec : List (List ℚ)) (nFrames nBins : ℕ) (t bin : ℕ) (mag : ℚ) :
    Bool :=
  ([-1, 0, 1] : List ℤ).all fun dt =>
    ([-3, -2, -1, 0, 1, 2, 3] : List ℤ).all fun df =>
      let tIdx : ℤ := (t : ℤ) + dt
      let fIdx : ℤ := (bin : ℤ) + df
      if tIdx < 0 ∨ (nFrames : ℤ) ≤ tIdx then true
      else if fIdx < 0 ∨ (nBins : ℤ) ≤ fIdx then true
      else if dt = 0 ∧ df = 0 then true
      else decide ((spec.getD tIdx.toNat []).getD fIdx.toNat 0 ≤ mag)

/-- The per-frame body of ExtractPeaks: band winners, adaptive dB threshold
against the mean band-winner level, and the local-maximum check. -/
def framePeaks (dB : ℚ → ℚ) (spec : List (List ℚ)) (nFrames nBins : ℕ)
    (freqRes frameTime : ℚ) (bands : List (ℕ × ℕ)) (t : ℕ) : List Peak :=
  let frame := spec.getD t []
  let bandMax := bands.map (fun b => bandWinner frame nBins b)
  let sumDb := (bandMax.map (fun bm => dB bm.1)).sum
  let avgDb := sumDb / (bandMax.length : ℚ)
  bandMax.filterMap (fun bm =>
    if bm.1 ≤ 0 then none
    else
      let magDb := dB bm.1
      if magDb < avgDb + 3 then none
      else if isLocalMax spec nFrames nBins t bm.2 bm.1 then
        some ⟨t, bm.2, (t : ℚ) * frameTime, (bm.2 : ℚ) * freqRes, magDb⟩
      else none)

/-- The ordering of the final sort of ExtractPeaks: lexicographic by
(TimeIdx, FreqIdx) ascending. -/
def peakLe (p q : Peak) : Prop :=
  p.TimeIdx < q.TimeIdx ∨ (p.TimeIdx = q.TimeIdx ∧ p.FreqIdx ≤ q.FreqIdx)

instance : DecidableRel peakLe := fun p q => by unfold peakLe; infer_instance

instance : IsTotal Peak peakLe := ⟨by intro p q; unfold peakLe; omega⟩

instance : IsTrans Peak peakLe := ⟨by intro a b c; unfold peakLe; omega⟩

/-- ExtractPeaks from peaks.go: empty or degenerate spectrogram gives no peaks;
otherwise per-frame band-winner candidates filtered by threshold and local
maximality, sorted by (TimeIdx, FreqIdx) at the end. audioDuration is unused by
the source as well. -/
def ExtractPeaks (dB : ℚ → ℚ) (spectrogram : List (List ℚ)) (audioDuration : ℚ)
    (sampleRate : ℕ) : List Peak :=
  if spectrogram.length = 0 ∨ (spectrogram.headD []).length = 0 then []
  else
    let nFrames := spectrogram.length
    let nBins := (spectrogram.headD []).length
    let freqRes : ℚ := (sampleRate : ℚ) / (WindowSize : ℚ)
    let frameTime : ℚ := (HopSize : ℚ) / (sampleRate : ℚ)
    let bands := bandsList nBins
    let candidates := (List.range nFrames).flatMap
      (fun t => framePeaks dB spectrogram nFrames nBins freqRes frameTime bands t)
    List.insertionSort peakLe candidates

/-- Claim C9: for every input spectrogram (and every dB map) the peak list
returned by ExtractPeaks is sorted lexicographically by (TimeIdx, FreqIdx)
ascending. -/
theorem claim9_peaks_sorted (dB : ℚ → ℚ) (spectrogram : List (List ℚ))
    (audioDuration : ℚ) (sampleRate : ℕ) :
    List.Sorted peakLe (ExtractPeaks dB spectrogram audioDuration sampleRate) := by
  unfold ExtractPeaks
  split_ifs with h
  · exact List.sorted_nil
  · exact List.sorted_insertionSort peakLe _

/-! Claim C10: MatchHashes from service.go, the hash-only matching entry point.
The storage seam is a record of the operations MatchHashes calls. -/

/-- A ranked raw match (models.Match). -/
structure Match where
  SongID : String
  OffsetMs : ℤ
  Count : ℕ
deriving DecidableEq, Repr

/-- A decorated match result (models.MatchResult). -/
structure MatchResult where
  SongID : String
  Title : String
  Artist : String
  YouTubeID : String
  Score : ℕ
  OffsetMs : ℤ
  Confidence : ℝ

/-- The storage operations used by MatchHashes. -/
structure StorageOps where
  getCouplesByHashes : List ℕ → Except String (List (ℕ × List Couple))
  getSongByID : String → Except String Song
  getFingerprintCount : String → Except String ℕ

/-- Increment the counter of one offset in a vote bucket. -/
def incOffset (l : List (ℤ × ℕ)) (o : ℤ) : List (ℤ × ℕ) :=
  match l with
  | [] => [(o, 1)]
  | (o2, n) :: rest => if o2 = o then (o2, n + 1) :: rest else (o2, n) :: incOffset rest o

/-- Increment votes[songID][offset]. -/
def incVote (votes : List (String × List (ℤ × ℕ))) (songID : String) (offset : ℤ) :
    List (String × List (ℤ × ℕ)) :=
  match votes with
  | [] => [(songID, [(offset, 1)])]
  | (s, m) :: rest =>
    if s = songID then (s, incOffset m offset) :: rest
    else (s, m) :: incVote rest songID offset

/-- Step 3 of MatchHashes: one vote per (query hash, database couple) pair at
offset dbAnchor - queryAnchor. -/
def buildVotes (hashes : List (ℕ × ℕ)) (dbMap : List (ℕ × List Couple)) :
    List (String × List (ℤ × ℕ)) :=
  hashes.foldl
    (fun votes e =>
      (lookupCouples dbMap e.1).foldl
        (fun votes2 c => incVote votes2 c.SongID ((c.AnchorTimeMs : ℤ) - (e.2 : ℤ)))
        votes)
    []

/-- Step 4 of MatchHashes: the most voted offset of one song (strictly greater
count wins, starting from (0, 0)). -/
def bestOffsetOf (offsetVotes : List (ℤ × ℕ)) : ℤ × ℕ :=
  offsetVotes.foldl (fun best e => if e.2 > best.2 then (e.1, e.2) else best) (0, 0)

/-- Step 4 of MatchHashes, continued: keep the songs with a positive best count. -/
def buildMatches (votes : List (String × List (ℤ × ℕ))) : List Match :=
  votes.foldl
    (fun ms sv =>
      let b := bestOffsetOf sv.2
      if b.2 > 0 then ms ++ [⟨sv.1, b.1, b.2⟩] else ms)
    []

/-- Step 5 of MatchHashes: decorate each match with song metadata and a
confidence score; a failing song lookup skips the match, a failing fingerprint
count falls back to the query hash count. -/
noncomputable def buildResults (stor : StorageOps) (hashCount : ℕ)
    (ms : List Match) : List MatchResult :=
  ms.foldl
    (fun results m =>
      match stor.getSongByID m.SongID with
      | Except.error _ => results
      | Except.ok song =>
        let dbCount := match stor.getFingerprintCount m.SongID with
          | Except.error _ => hashCount
          | Except.ok n => n
        let conf := calculateConfidence m.Count hashCount dbCount
        results ++ [⟨m.SongID, song.Title, song.Artist, song.YouTubeID,
          m.Count, m.OffsetMs, conf⟩])
    []

/-- MatchHashes from service.go: an empty hash map returns an empty result list
and no error before any storage call; otherwise one batched lookup followed by
offset voting, ranking and decoration. -/
noncomputable def MatchHashes (stor : StorageOps) (hashes : List (ℕ × ℕ)) :
    Except String (List MatchResult) :=
  if hashes.length = 0 then Except.ok []
  else
    match stor.getCouplesByHashes (hashes.map (fun e => e.1)) with
    | Except.error e =>
      Except.error ("failed to retrieve fingerprints from database: " ++ e)
    | Except.ok dbMap =>
      let votes := buildVotes hashes dbMap
      let ms := buildMatches votes
      Except.ok (buildResults stor hashes.length ms)

/-- Claim C10: MatchHashes on an empty hash map returns the empty match list and
no error, for every storage — in particular for storages whose lookup always
fails, so no storage lookup is performed. -/
theorem claim10_empty_hashes (stor : StorageOps) :
    MatchHashes stor [] = Except.ok [] := rfl

end AcousticDNA
